import Mathlib

/-! A verification development for aibench/python/sh_commands.py.

The device-orchestration helpers of the repository — device-list parsing
(adb_devices), artifact push/pull with checksum gating (adb_push_file,
adb_pull, download_file, get_model_file), the build-target path transform
(bazel_target_to_bin), the CPU affinity mask (get_cpu_mask), and the
device-lock scheduler loop of adb_run — are embedded as executable Lean
definitions, and the stated properties are settled as theorems below.

External effects (the adb bridge, the filesystem, the wall clock) enter as
explicit parameters: a remote command's outcome is an `Except` value, file
state is a record of digests, and elapsed time is an injected clock
function, so every theorem quantifies over all possible behaviours of the
environment. -/

/-- Python whitespace class (used by str.split and str.strip): space, tab,
newline, carriage return, form feed, vertical tab. -/
def isSpaceChar (c : Char) : Bool :=
  c = ' ' || c = '\t' || c = '\n' || c = '\r' || c = '\x0c' || c = '\x0b'

/-- Python regex word class for a plain pattern in Python 2 (no re.UNICODE):
[a-zA-Z0-9_]. -/
def isWordChar (c : Char) : Bool :=
  c.isAlphanum || c = '_'

/-- Python str.split(sep) generalised to a separator predicate: cuts at every
separator character and keeps empty fields. -/
def splitOnP (p : Char → Bool) : List Char → List (List Char)
  | [] => [[]]
  | c :: cs =>
    if p c then [] :: splitOnP p cs
    else
      match splitOnP p cs with
      | [] => [[c]]
      | g :: gs => (c :: g) :: gs

/-- Python str.split() with no argument: whitespace-separated tokens with
empty fields dropped. -/
def pySplitWs (l : List Char) : List (List Char) :=
  (splitOnP isSpaceChar l).filter (fun t => t ≠ [])

/-- Python str.strip(). -/
def pyStrip (l : List Char) : List Char :=
  ((l.dropWhile isSpaceChar).reverse.dropWhile isSpaceChar).reverse

/-- An sh.ErrorReturnCode-style failure of a remote command, carrying the
captured stderr text. -/
structure ShError where
  stderr : String

/-- adb_pull (sh_commands.py lines 131-137): print the transfer message, try
the pull, and on failure print the error's stderr. The outcome of the
underlying `adb pull` command is passed in as `pull`. The result collects
the printed lines; an `Except.error` result would model an exception
escaping the function. -/
def adb_pull (src_path dst_path : String) (pull : Except ShError Unit) :
    Except ShError (List String) :=
  let msg := "Pull " ++ src_path ++ " to " ++ dst_path
  match pull with
  | Except.ok _ => Except.ok [msg]
  | Except.error e => Except.ok [msg, "Error msg: " ++ e.stderr]

/-- adb_push_file (sh_commands.py lines 101-121). `is_file` is
os.path.isfile(src_file); `src_checksum` is file_checksum(src_file);
`md5_query` is the outcome of the remote `md5sum dst_file` command
(error = sh.ErrorReturnCode_1, ok = the captured stdout lines). Returns
`some b` where `b` records whether the `adb push` transfer was performed;
`none` models the uncaught IndexError when a successful md5sum query has no
first token (stdout_buff[0].split()[0]). -/
def adb_push_file (is_file : Bool) (src_checksum : String)
    (md5_query : Except Unit (List String)) : Option Bool :=
  if is_file = false then some false
  else
    match md5_query with
    | Except.error _ => some true
    | Except.ok stdout_buff =>
      match stdout_buff with
      | [] => none
      | line :: _ =>
        match pySplitWs line.toList with
        | [] => none
        | dst_checksum :: _ =>
          if src_checksum.toList = dst_checksum then some false else some true

/-- Python str.replace("//", "/"): replace every non-overlapping occurrence
of a double slash by a single slash, scanning left to right. -/
def replaceDS : List Char → List Char
  | '/' :: '/' :: rest => '/' :: replaceDS rest
  | c :: rest => c :: replaceDS rest
  | [] => []

/-- No occurrence of "//" anywhere in the character list. -/
def noDS : List Char → Bool
  | '/' :: '/' :: _ => false
  | _ :: rest => noDS rest
  | [] => true

/-- Python str.startswith("/"). -/
def startsWithSlash : List Char → Bool
  | '/' :: _ => true
  | _ => false

/-- bazel_target_to_bin (sh_commands.py lines 222-229): change //aibench/a/b:c
to the pair (bazel-bin/aibench/a/b, c). Python's
`a, b = target.split(':')` unpacking raises unless the split has exactly two
fields, which `none` models. -/
def bazel_target_to_bin (target : String) : Option (String × String) :=
  match splitOnP (fun c => decide (c = ':')) target.toList with
  | [pre, bin_name] =>
    let pre2 := replaceDS pre
    let pre3 := if startsWithSlash pre2 then pre2.drop 1 else pre2
    some (("bazel-bin/".toList ++ pre3).asString, bin_name.asString)
  | _ => none

/-- The filesystem state download_file and get_model_file see at one local
path, tracked by content digests: whether the file exists, the digest of its
current content, and the digest of the content a urllib.urlretrieve fetch
would write. -/
structure LocalArtifact where
  file_exists : Bool
  digest : String
  fetched_digest : String

/-- download_file (sh_commands.py lines 160-170): fetch when the file is
absent or its checksum differs, then exit(1) — modelled by `none` — when the
checksum still differs; otherwise return the file path, represented here by
the digest of the returned file's content. -/
def download_file (st : LocalArtifact) (checksum : String) : Option String :=
  let d := if st.file_exists = false ∨ st.digest ≠ checksum
           then st.fetched_digest else st.digest
  if d ≠ checksum then none else some d

/-- Modelled from the spec: aibench_check comes from
aibench/python/utils/common.py, which is not under src/. Per the spec,
`verifyOrFail ... raises a Checksum Mismatch failure (fatal to the calling
stage) when digests differ after a fetch — never silently proceeds`, so a
false condition aborts (`none`). -/
def aibench_check (cond : Prop) [Decidable cond] : Option Unit :=
  if cond then some () else none

/-- get_model_file (sh_commands.py lines 280-295). `is_http` is
file_path.startswith("http"). For a remote path: fetch when absent or stale,
then aibench_check that the checksum matches; for a local path: aibench_check
directly. On success the local path — represented by its content digest — is
appended to push_list; `none` models the raised checksum-mismatch failure. -/
def get_model_file (is_http : Bool) (st : LocalArtifact) (checksum : String)
    (push_list : List String) : Option (List String) :=
  if is_http then
    let d := if st.file_exists = false ∨ st.digest ≠ checksum
             then st.fetched_digest else st.digest
    match aibench_check (d = checksum) with
    | none => none
    | some _ => some (push_list ++ [d])
  else
    match aibench_check (st.digest = checksum) with
    | none => none
    | some _ => some (push_list ++ [st.digest])

/-- Python max() over a list of naturals; in get_cpu_mask it is only applied
to a non-empty list, where foldl max 0 agrees with the maximum. -/
def maxFreq (l : List ℕ) : ℕ := l.foldl Nat.max 0

/-- The mask string built by the loop of get_cpu_mask (sh_commands.py lines
418-419): iterating cores in increasing id order, prepend '1' when the
core's max frequency equals the global maximum, else prepend '0' — so core 0
ends at the right (least significant) end. -/
def cpu_mask_string (freq_list : List ℕ) : List Char :=
  freq_list.foldl
    (fun acc f => (if f = maxFreq freq_list then '1' else '0') :: acc) []

/-- Value of a most-significant-first binary digit string. -/
def binToNat (s : List Char) : ℕ :=
  s.foldl (fun acc c => 2 * acc + (if c = '1' then 1 else 0)) 0

/-- Python int(s, 2): fails (ValueError) on the empty string or on any
character other than a binary digit. -/
def pyIntBase2 (s : List Char) : Option ℕ :=
  if s ≠ [] ∧ ∀ c ∈ s, c = '0' ∨ c = '1' then some (binToNat s) else none

/-- Python str(hex(n))[2:]: lowercase hexadecimal digits of n with no 0x. -/
def pyHex (n : ℕ) : String := (Nat.toDigits 16 n).asString

/-- get_cpu_mask (sh_commands.py lines 404-420) as a function of the
per-core max frequencies read from the device (the read loop stops at the
first unreadable core). `none` models the ValueError raised by
int('', 2) when no core frequency was read. -/
def get_cpu_mask (freq_list : List ℕ) : Option String :=
  match pyIntBase2 (cpu_mask_string freq_list) with
  | none => none
  | some v => some (pyHex v)

/-- Little-endian value of a bit list: element i contributes 2^i. -/
def bitsVal : List Bool → ℕ
  | [] => 0
  | b :: bs => (if b then 1 else 0) + 2 * bitsVal bs

/-- Prefix test on character lists (Python regex literal matching). -/
def beginsWith : List Char → List Char → Bool
  | [], _ => true
  | _ :: _, [] => false
  | p :: ps, c :: cs => p = c && beginsWith ps cs

/-- One attempt of the pattern (\w+)\s+device via re.match against the start
of a line, returning group 1. Since a word character is never whitespace and
"device" starts with a non-whitespace letter, the greedy deterministic scan
(maximal word run, then maximal whitespace run, then the literal) is
equivalent to the backtracking regex. The regex has no end anchor, so any
tail after "device" is accepted. -/
def matchSerialDevice (l : List Char) : Option String :=
  let w := l.takeWhile isWordChar
  let r1 := l.dropWhile isWordChar
  let s := r1.takeWhile isSpaceChar
  let r2 := r1.dropWhile isSpaceChar
  if w ≠ [] ∧ s ≠ [] ∧ beginsWith "device".toList r2 = true
  then some w.asString else none

/-- split_stdout (sh_commands.py lines 41-44): split the captured stdout on
newlines, strip each line, drop empty lines. strip_invalid_utf8 is the
identity here since Lean strings are always valid unicode. -/
def split_stdout (stdout_str : String) : List (List Char) :=
  ((splitOnP (fun c => decide (c = '\n')) stdout_str.toList).map pyStrip).filter
    (fun l => l ≠ [])

/-- adb_devices (sh_commands.py lines 63-71) as a function of the captured
output of `adb devices`: collect group 1 of every line matching
(\w+)\s+device, in order. -/
def adb_devices (stdout : String) : List String :=
  (split_stdout stdout).filterMap matchSerialDevice

/-- The inner while loop of adb_run (sh_commands.py lines 484-511), one lock
hold. State: `i` is the next pending index into benchmark_list (of length
`n`), `elapse` is elapse_minutes, `k` counts jobs run during this hold.
`clock k` is the value (time.time() - start_time) / 60 recomputed after the
k-th job of the hold — time is injected, so theorems range over every
possible timing. `fuel` is n - i at entry, a bound on the loop's
iterations, and the loop guard `i < n` is checked exactly as in the code.
Returns the indices of the jobs run during the hold, in execution order. -/
def batchGo (maxT : ℚ) (clock : ℕ → ℚ) (n : ℕ) :
    ℕ → ℕ → ℚ → ℕ → List ℕ
  | 0, _, _, _ => []
  | fuel + 1, i, elapse, k =>
    if elapse < maxT ∧ i < n then
      i :: batchGo maxT clock n fuel (i + 1) (clock (k + 1)) (k + 1)
    else []

/-- One lock hold of adb_run starting at pending index i: elapse_minutes is
initialised to 0 before the loop (line 484). -/
def batch (maxT : ℚ) (clock : ℕ → ℚ) (n i : ℕ) : List ℕ :=
  batchGo maxT clock n (n - i) i 0 0

/-- The outer while loop of adb_run (sh_commands.py lines 444-514): while
jobs are pending, acquire the device lock, run one batch, release, sleep.
`clock i` is the elapse clock of the hold that starts at pending index i.
`fuel` bounds the number of outer iterations; `none` means the fuel was
exhausted with jobs still pending, which models non-termination of the
loop. Returns the list of batches, one per lock acquisition. -/
def schedGo (maxT : ℚ) (clock : ℕ → ℕ → ℚ) (n : ℕ) :
    ℕ → ℕ → Option (List (List ℕ))
  | 0, i => if i < n then none else some []
  | fuel + 1, i =>
    if i < n then
      match schedGo maxT clock n fuel (i + (batch maxT (clock i) n i).length) with
      | none => none
      | some rest => some (batch maxT (clock i) n i :: rest)
    else some []

/-- The scheduler loop of adb_run on a benchmark_list of length n. Fuel
n + 1 covers any terminating execution: every lock hold that runs at least
one job advances i, so at most n holds plus the final guard check occur. -/
def adb_run_schedule (maxT : ℚ) (clock : ℕ → ℕ → ℚ) (n : ℕ) :
    Option (List (List ℕ)) :=
  schedGo maxT clock n (n + 1) 0

/-- The local result path built at the end of adb_run (lines 516-518). -/
def adb_run_result_path (output_dir product_model target_soc abi : String) :
    String :=
  output_dir ++ "/" ++ product_model ++ "_" ++ target_soc ++ "_" ++ abi
    ++ "_" ++ "result.txt"

/-- adb_run (sh_commands.py lines 423-521) reduced to its observable
schedule: the batches of benchmark indices run per lock hold, paired with
the returned local result path; `none` models a non-terminating scheduler
loop. After the loop, adb_pull of the result file is invoked and dest_path
is returned. -/
def adb_run_model (maxT : ℚ) (clock : ℕ → ℕ → ℚ) (n : ℕ)
    (output_dir product_model target_soc abi : String) :
    Option (List (List ℕ) × String) :=
  (adb_run_schedule maxT clock n).map
    (fun bs => (bs, adb_run_result_path output_dir product_model target_soc abi))

/-! Theorems. Helper lemmas come first, then one theorem (with witness or
counterexample where required) per claim. -/

/-- C3: adb_pull never propagates an exception: for every remote path, local
path and serial, any transfer failure raised by the underlying pull command
is caught and its stderr logged, and the function returns normally. -/
theorem adb_pull_never_propagates :
    ∀ (src_path dst_path : String) (pull : Except ShError Unit),
      (∃ logs, adb_pull src_path dst_path pull = Except.ok logs)
      ∧ ∀ e : ShError,
          adb_pull src_path dst_path (Except.error e)
            = Except.ok ["Pull " ++ src_path ++ " to " ++ dst_path,
                         "Error msg: " ++ e.stderr] := by
  intro src_path dst_path pull
  refine ⟨?_, fun e => rfl⟩
  cases pull with
  | ok u => exact ⟨_, rfl⟩
  | error e => exact ⟨_, rfl⟩

/-- C4: adb_push_file is idempotent with respect to the transfer primitive:
a non-regular source is skipped without transfer; when the remote checksum
query fails, the transfer is performed; when it succeeds, the transfer is
performed exactly when the reported checksum differs from the local one —
so a repeat invocation whose remote copy already carries the local checksum
performs no transfer. -/
theorem adb_push_file_checksum_gate :
    (∀ (src_checksum : String) (q : Except Unit (List String)),
      adb_push_file false src_checksum q = some false)
    ∧ (∀ src_checksum : String,
      adb_push_file true src_checksum (Except.error ()) = some true)
    ∧ (∀ (src_checksum line : String) (rest : List String)
        (w : List Char) (ws : List (List Char)),
        pySplitWs line.toList = w :: ws →
        (adb_push_file true src_checksum (Except.ok (line :: rest)) = some false
          ↔ src_checksum.toList = w)) := by
  refine ⟨fun src q => rfl, fun src => rfl, fun src line rest w ws h => ?_⟩
  simp only [adb_push_file, h]
  by_cases hw : src.toList = w
  · simp [hw]
  · simp [hw]

/-- C4 witness: with local checksum "abc" and a successful remote md5sum
reporting "abc  /data/f", the second invocation performs no transfer. -/
theorem adb_push_file_checksum_gate_witness :
    pySplitWs ("abc  /data/f".toList) = "abc".toList :: ["/data/f".toList]
    ∧ (adb_push_file true "abc" (Except.ok ["abc  /data/f"]) = some false
        ↔ "abc".toList = "abc".toList) :=
  ⟨by decide,
   adb_push_file_checksum_gate.2.2 "abc" "abc  /data/f" []
     "abc".toList ["/data/f".toList] (by decide)⟩

/-- C8: artifact fetching never proceeds with a corrupt artifact: whenever
download_file returns a path, the digest of that path's content equals the
expected checksum, and whenever get_model_file succeeds, the path it appends
to push_list carries the expected checksum. -/
theorem artifact_checksum_gate :
    (∀ (st : LocalArtifact) (checksum d : String),
      download_file st checksum = some d → d = checksum)
    ∧ (∀ (is_http : Bool) (st : LocalArtifact) (checksum : String)
        (push_list res : List String),
        get_model_file is_http st checksum push_list = some res →
        res = push_list ++ [checksum]) := by
  constructor
  · intro st c d h
    simp only [download_file] at h
    by_cases hd : (if st.file_exists = false ∨ st.digest ≠ c
        then st.fetched_digest else st.digest) ≠ c
    · rw [if_pos hd] at h
      exact Option.noConfusion h
    · rw [if_neg hd] at h
      injection h with h2
      rw [← h2]
      exact not_not.mp hd
  · intro ih st c pl res h
    cases ih with
    | false =>
      simp only [get_model_file, aibench_check] at h
      by_cases hd : st.digest = c
      · rw [if_pos hd] at h
        injection h with h2
        rw [← h2, hd]
      · rw [if_neg hd] at h
        simp at h
    | true =>
      simp only [get_model_file, aibench_check] at h
      by_cases hd : (if st.file_exists = false ∨ st.digest ≠ c
          then st.fetched_digest else st.digest) = c
      · rw [if_pos hd] at h
        injection h with h2
        rw [← h2, hd]
      · rw [if_neg hd] at h
        simp at h

/-- C8 witness: a pre-existing local file whose digest already matches is
returned as-is by download_file with the expected checksum, and
get_model_file on a local (non-http) model path appends a path carrying the
expected checksum. -/
theorem artifact_checksum_gate_witness :
    ("abc" : String) = "abc" ∧ (["p", "abc"] : List String) = ["p"] ++ ["abc"] :=
  ⟨artifact_checksum_gate.1 ⟨true, "abc", "zzz"⟩ "abc" "abc" (by decide),
   artifact_checksum_gate.2 false ⟨true, "abc", "zzz"⟩ "abc" ["p"]
     ["p", "abc"] (by decide)⟩

/-- Every lock-hold batch is a run of consecutive pending indices starting
at i, staying within the job list, and is non-empty whenever the loop is
entered with time left on the budget. -/
theorem batchGo_eq_range' (maxT : ℚ) (c : ℕ → ℚ) (n : ℕ) :
    ∀ (fuel i : ℕ) (e : ℚ) (k : ℕ), ∃ j,
      batchGo maxT c n fuel i e k = List.range' i j
      ∧ (i + j ≤ n ∨ j = 0)
      ∧ (0 < fuel → i < n → e < maxT → 0 < j) := by
  intro fuel
  induction fuel with
  | zero =>
    intro i e k
    exact ⟨0, rfl, Or.inr rfl, fun h => absurd h (by omega)⟩
  | succ fuel ih =>
    intro i e k
    by_cases h : e < maxT ∧ i < n
    · obtain ⟨j, hj, hb, _⟩ := ih (i + 1) (c (k + 1)) (k + 1)
      refine ⟨j + 1, ?_, ?_, fun _ _ _ => Nat.succ_pos j⟩
      · simp only [batchGo, if_pos h, hj, List.range'_succ]
      · left
        rcases hb with hb | hb <;> omega
    · refine ⟨0, ?_, Or.inr rfl, ?_⟩
      · simp only [batchGo, if_neg h]
        rfl
      · intro _ hi hm
        exact absurd ⟨hm, hi⟩ h

/-- With a positive time budget and a pending job, one lock hold runs a
non-empty run of consecutive jobs within bounds. -/
theorem batch_shape (maxT : ℚ) (c : ℕ → ℚ) (n i : ℕ) (hi : i < n)
    (hm : 0 < maxT) :
    ∃ j, batch maxT c n i = List.range' i j ∧ 0 < j ∧ i + j ≤ n := by
  obtain ⟨j, hj, hb, hp⟩ := batchGo_eq_range' maxT c n (n - i) i 0 0
  have hj0 : 0 < j := hp (by omega) hi hm
  refine ⟨j, hj, hj0, ?_⟩
  rcases hb with hb | hb
  · exact hb
  · omega

/-- With a zero time budget the inner loop guard fails immediately, so a
lock hold runs no job at all. -/
theorem batch_zero_budget (c : ℕ → ℚ) (n i : ℕ) : batch 0 c n i = [] := by
  unfold batch
  cases h : n - i with
  | zero => rfl
  | succ m =>
    simp only [batchGo]
    rw [if_neg]
    rintro ⟨hm, _⟩
    exact absurd hm (lt_irrefl 0)

/-- With a zero time budget and a pending job, no amount of fuel lets the
outer loop finish: the pending index never advances. -/
theorem schedGo_zero_budget (clock : ℕ → ℕ → ℚ) (n : ℕ) :
    ∀ (fuel i : ℕ), i < n → schedGo 0 clock n fuel i = none := by
  intro fuel
  induction fuel with
  | zero =>
    intro i hi
    simp only [schedGo, if_pos hi]
  | succ fuel ih =>
    intro i hi
    simp only [schedGo, if_pos hi, batch_zero_budget, List.length_nil,
      Nat.add_zero, ih i hi]

/-- With a positive time budget the outer loop terminates within fuel
n - i + 1 and the batches cover exactly the pending indices in order. -/
theorem schedGo_complete (maxT : ℚ) (hm : 0 < maxT) (clock : ℕ → ℕ → ℚ)
    (n : ℕ) :
    ∀ (fuel i : ℕ), n - i < fuel →
      ∃ bs, schedGo maxT clock n fuel i = some bs
        ∧ bs.flatten = List.range' i (n - i) := by
  intro fuel
  induction fuel with
  | zero =>
    intro i h
    omega
  | succ fuel ih =>
    intro i h
    by_cases hi : i < n
    · obtain ⟨j, hbj, hj0, hjn⟩ := batch_shape maxT (clock i) n i hi hm
      have hlen : (batch maxT (clock i) n i).length = j := by
        rw [hbj, List.length_range']
      obtain ⟨bs, hbs, hjoin⟩ := ih (i + j) (by omega)
      refine ⟨batch maxT (clock i) n i :: bs, ?_, ?_⟩
      · simp only [schedGo, if_pos hi, hlen, hbs]
      · have hsum : n - (i + j) + j = n - i := by omega
        simp only [List.flatten_cons, hbj, hjoin, List.range'_append_1, hsum]
    · have h0 : n - i = 0 := by omega
      refine ⟨[], ?_, by simp [h0]⟩
      simp [schedGo, hi]

/-- C1: the progress guarantee fails at a zero time budget: with
max_time_per_lock = 0 every lock hold of adb_run runs an empty batch even
while jobs remain pending, and the scheduler loop never terminates on a
non-empty job list (the claim asserts at least one job per lock hold). -/
theorem zero_budget_runs_no_job :
    (∀ (c : ℕ → ℚ) (n i : ℕ), batch 0 c n i = [])
    ∧ (∀ (clock : ℕ → ℕ → ℚ) (n : ℕ), 0 < n →
        adb_run_schedule 0 clock n = none) := by
  refine ⟨batch_zero_budget, fun clock n hn => ?_⟩
  exact schedGo_zero_budget clock n (n + 1) 0 hn

/-- C1 witness: one pending job, zero budget — the lock hold runs nothing
and the scheduler never completes. -/
theorem zero_budget_runs_no_job_witness :
    batch 0 (fun _ => 0) 1 0 = []
    ∧ 0 < 1 ∧ adb_run_schedule 0 (fun _ _ => 0) 1 = none :=
  ⟨zero_budget_runs_no_job.1 (fun _ => 0) 1 0, Nat.one_pos,
   zero_budget_runs_no_job.2 (fun _ _ => 0) 1 Nat.one_pos⟩

/-- C2 counterexample: with an empty pending job list, adb_run performs
zero lock acquisitions — the Locked/Setup and Batch Execution states do not
execute once as claimed: the schedule has no batch at all. -/
theorem empty_jobs_counterexample :
    adb_run_model 1 (fun _ _ => 0) 0 "out" "pm" "soc" "abi"
      = some ([], adb_run_result_path "out" "pm" "soc" "abi")
    ∧ ¬ ∃ bs s, adb_run_model 1 (fun _ _ => 0) 0 "out" "pm" "soc" "abi"
        = some (bs, s) ∧ bs.length = 1 := by
  refine ⟨rfl, ?_⟩
  rintro ⟨bs, s, h1, h2⟩
  have h0 : adb_run_model 1 (fun _ _ => 0) 0 "out" "pm" "soc" "abi"
      = some ([], adb_run_result_path "out" "pm" "soc" "abi") := rfl
  rw [h0] at h1
  injection h1 with h3
  have hbs : bs = [] := (congrArg Prod.fst h3).symm
  rw [hbs] at h2
  exact absurd h2 (by simp)

/-- C2 amended: when the pending job list is empty, the scheduler loop body
of adb_run never runs (no lock acquisition, no setup, no benchmark), and
adb_run directly pulls the result file and returns its local path
output_dir/product_model_target_soc_abi_result.txt. -/
theorem empty_jobs_no_lock_hold :
    ∀ (maxT : ℚ) (clock : ℕ → ℕ → ℚ) (od pm soc abi : String),
      adb_run_model maxT clock 0 od pm soc abi
        = some ([], adb_run_result_path od pm soc abi)
      ∧ adb_run_result_path "output" "MI8" "sdm845" "arm64-v8a"
        = "output/MI8_sdm845_arm64-v8a_result.txt" := by
  intro maxT clock od pm soc abi
  exact ⟨rfl, rfl⟩

/-- C9: with any positive time budget, the scheduler loop of adb_run
terminates and the concatenation of its per-lock-hold batches is exactly
the benchmark list's index sequence 0, 1, ..., n-1 in catalog-enumeration
order: every job runs exactly once and job j+1 never runs before job j. -/
theorem schedule_runs_jobs_in_order :
    ∀ (maxT : ℚ), 0 < maxT → ∀ (clock : ℕ → ℕ → ℚ) (n : ℕ),
      ∃ bs, adb_run_schedule maxT clock n = some bs
        ∧ bs.flatten = List.range n := by
  intro maxT hm clock n
  obtain ⟨bs, h1, h2⟩ := schedGo_complete maxT hm clock n (n + 1) 0 (by omega)
  refine ⟨bs, h1, ?_⟩
  rw [List.range_eq_range']
  simpa using h2

/-- C9 witness: three jobs, budget one minute. -/
theorem schedule_runs_jobs_in_order_witness :
    (0 : ℚ) < 1
    ∧ ∃ bs, adb_run_schedule 1 (fun _ _ => 0) 3 = some bs
        ∧ bs.flatten = List.range 3 :=
  ⟨by norm_num,
   schedule_runs_jobs_in_order 1 (by norm_num) (fun _ _ => 0) 3⟩

/-- splitOnP always produces at least one field. -/
theorem splitOnP_ne_nil (p : Char → Bool) : ∀ l, splitOnP p l ≠ [] := by
  intro l
  cases l with
  | nil => simp [splitOnP]
  | cons c cs =>
    simp only [splitOnP]
    split
    · simp
    · split
      · simp
      · simp

/-- A separator-free string splits into the single field it is. -/
theorem splitOnP_no_sep (p : Char → Bool) :
    ∀ l, (∀ c ∈ l, p c = false) → splitOnP p l = [l] := by
  intro l
  induction l with
  | nil => intro _; rfl
  | cons c cs ih =>
    intro h
    have hc : p c = false := h c (by simp)
    have hcs := ih (fun x hx => h x (by simp [hx]))
    simp only [splitOnP, hc, Bool.false_eq_true, if_false, hcs]

/-- A string with exactly one separator splits into the two fields around
it. -/
theorem splitOnP_one_sep (p : Char → Bool) (sep : Char) (hsep : p sep = true) :
    ∀ l1 l2, (∀ c ∈ l1, p c = false) → (∀ c ∈ l2, p c = false) →
      splitOnP p (l1 ++ sep :: l2) = [l1, l2] := by
  intro l1
  induction l1 with
  | nil =>
    intro l2 _ h2
    simp only [List.nil_append, splitOnP, hsep, if_true,
      splitOnP_no_sep p l2 h2]
  | cons c cs ih =>
    intro l2 h1 h2
    have hc : p c = false := h1 c (by simp)
    simp only [List.cons_append, splitOnP, hc, Bool.false_eq_true, if_false,
      List.append_eq, ih l2 (fun x hx => h1 x (by simp [hx])) h2]

/-- noDS is preserved by dropping the head character. -/
theorem noDS_tail : ∀ (c : Char) (cs : List Char),
    noDS (c :: cs) = true → noDS cs = true := by
  intro c cs h
  rw [noDS.eq_def] at h
  split at h
  · exact absurd h (by simp)
  · rename_i heq
    injection heq with _ h2
    rw [h2]
    exact h
  · rename_i heq
    exact absurd heq (by simp)

/-- Python replace("//", "/") leaves a string without a double slash
unchanged. -/
theorem replaceDS_of_noDS : ∀ l, noDS l = true → replaceDS l = l := by
  intro l
  induction l with
  | nil => intro _; rfl
  | cons c cs ih =>
    intro h
    rw [replaceDS.eq_def]
    split
    · rename_i rest heq
      exfalso
      rw [heq] at h
      rw [noDS.eq_def] at h
      simp at h
    · rename_i c2 rest2 heq
      injection heq with hc hrest
      subst hc
      subst hrest
      rw [ih (noDS_tail _ _ h)]
    · rename_i heq
      exact absurd heq (by simp)

/-- C5 counterexample: the build-target transform maps //aibench/a/b:c to
the directory bazel-bin/aibench/a/b, not built/aibench/a/b as the claim
states. -/
theorem bazel_target_to_bin_counterexample :
    bazel_target_to_bin "//aibench/a/b:c"
      = some ("bazel-bin/aibench/a/b", "c")
    ∧ bazel_target_to_bin "//aibench/a/b:c"
      ≠ some ("built/aibench/a/b", "c") := by
  exact ⟨by decide, by decide⟩

/-- C5 amended: for every well-formed target //path:name whose path and
name contain no further colon and whose path contains no double slash, the
transform returns the local directory bazel-bin/path and the binary name. -/
theorem bazel_target_to_bin_spec :
    ∀ (path name : List Char),
      (∀ x ∈ path, x ≠ ':') → (∀ x ∈ name, x ≠ ':') → noDS path = true →
      bazel_target_to_bin ((('/' :: '/' :: path) ++ ':' :: name).asString)
        = some (("bazel-bin/".toList ++ path).asString, name.asString) := by
  intro path name hp hc hds
  have h1 : ∀ x ∈ ('/' :: '/' :: path), decide (x = ':') = false := by
    intro x hx
    simp only [List.mem_cons] at hx
    rcases hx with rfl | rfl | hx
    · decide
    · decide
    · simp only [decide_eq_false_iff_not]
      exact hp x hx
  have h2 : ∀ x ∈ name, decide (x = ':') = false := by
    intro x hx
    simp only [decide_eq_false_iff_not]
    exact hc x hx
  have hsplit := splitOnP_one_sep (fun ch => decide (ch = ':')) ':'
    (by decide) ('/' :: '/' :: path) name h1 h2
  have hrep : replaceDS ('/' :: '/' :: path) = '/' :: path := by
    rw [show replaceDS ('/' :: '/' :: path) = '/' :: replaceDS path from rfl,
      replaceDS_of_noDS path hds]
  simp only [bazel_target_to_bin]
  rw [show ((('/' :: '/' :: path) ++ ':' :: name).asString).toList
      = ('/' :: '/' :: path) ++ ':' :: name from rfl]
  rw [hsplit]
  simp only [hrep]
  rfl

/-- C5 witness: the amended transform at the concrete target
//aibench/a/b:c. -/
theorem bazel_target_to_bin_spec_witness :
    noDS "aibench/a/b".toList = true
    ∧ bazel_target_to_bin
        ((('/' :: '/' :: "aibench/a/b".toList) ++ ':' :: "c".toList).asString)
      = some (("bazel-bin/".toList ++ "aibench/a/b".toList).asString,
              "c".toList.asString) :=
  ⟨by decide,
   bazel_target_to_bin_spec "aibench/a/b".toList "c".toList
     (by decide) (by decide) (by decide)⟩

/-- A left fold that prepends builds the reversed map. -/
theorem foldl_cons_eq_reverse_map {α β : Type} (g : α → β) :
    ∀ (l : List α) (acc : List β),
      List.foldl (fun a x => g x :: a) acc l = (l.map g).reverse ++ acc := by
  intro l
  induction l with
  | nil => intro acc; rfl
  | cons x xs ih =>
    intro acc
    simp only [List.foldl_cons, List.map_cons, List.reverse_cons, ih,
      List.append_assoc, List.singleton_append]

/-- The mask string is the per-core bit list, most significant core first. -/
theorem cpu_mask_string_eq (l : List ℕ) :
    cpu_mask_string l
      = ((l.map (fun f => decide (f = maxFreq l))).map
          (fun b => if b then '1' else '0')).reverse := by
  have hfun : (fun f => if f = maxFreq l then '1' else '0')
      = (fun b : Bool => if b then '1' else '0')
        ∘ (fun f : ℕ => decide (f = maxFreq l)) := by
    funext f
    by_cases h : f = maxFreq l <;> simp [h]
  rw [cpu_mask_string,
    foldl_cons_eq_reverse_map (fun f => if f = maxFreq l then '1' else '0') l [],
    List.append_nil, hfun, ← List.map_map]

/-- Appending one binary digit doubles the value and adds the digit. -/
theorem binToNat_append_one (ys : List Char) (c : Char) :
    binToNat (ys ++ [c]) = 2 * binToNat ys + (if c = '1' then 1 else 0) := by
  simp [binToNat, List.foldl_append]

/-- Reading the reversed bit characters most-significant-first yields the
little-endian value of the bit list. -/
theorem binToNat_rev_bits : ∀ bs : List Bool,
    binToNat ((bs.map (fun b => if b then '1' else '0')).reverse)
      = bitsVal bs := by
  intro bs
  induction bs with
  | nil => rfl
  | cons b bs ih =>
    simp only [List.map_cons, List.reverse_cons, binToNat_append_one, ih,
      bitsVal]
    cases b <;> simp <;> omega

/-- Bit i of the little-endian value is element i of the bit list. -/
theorem bitsVal_testBit : ∀ (bs : List Bool) (i : ℕ),
    (bitsVal bs).testBit i = bs.getD i false := by
  intro bs
  induction bs with
  | nil =>
    intro i
    simp [bitsVal]
  | cons b bs ih =>
    intro i
    cases i with
    | zero =>
      simp only [bitsVal, Nat.testBit_zero, List.getD_cons_zero]
      cases b <;> simp [Nat.add_mul_mod_self_left]
    | succ i =>
      simp only [bitsVal, Nat.testBit_add_one, List.getD_cons_succ]
      have hdiv : ((if b then 1 else 0) + 2 * bitsVal bs) / 2 = bitsVal bs := by
        cases b <;> simp <;> omega
      rw [hdiv, ih]

/-- On a non-empty frequency list, get_cpu_mask returns the hexadecimal
rendering of the little-endian per-core bit value. -/
theorem get_cpu_mask_eq (l : List ℕ) (hl : l ≠ []) :
    get_cpu_mask l
      = some (pyHex (bitsVal (l.map (fun f => decide (f = maxFreq l))))) := by
  have hne : cpu_mask_string l ≠ [] := by
    rw [cpu_mask_string_eq]
    simp [hl]
  have hbin : ∀ c ∈ cpu_mask_string l, c = '0' ∨ c = '1' := by
    rw [cpu_mask_string_eq]
    intro c hcmem
    simp only [List.mem_reverse, List.mem_map] at hcmem
    obtain ⟨b, _, rfl⟩ := hcmem
    cases b
    · left; rfl
    · right; rfl
  simp only [get_cpu_mask, pyIntBase2]
  rw [if_pos ⟨hne, hbin⟩, cpu_mask_string_eq, binToNat_rev_bits]

/-- C6: for every non-empty per-core max-frequency list, get_cpu_mask
renders as hexadecimal the mask whose bit i (from the lowest bit) is 1
exactly when core i's max frequency equals the maximum of the list; for
frequencies [100, 200, 200, 100] the result is "6". -/
theorem get_cpu_mask_spec :
    (∀ freq_list : List ℕ, 0 < freq_list.length →
      ∃ v, get_cpu_mask freq_list = some (pyHex v)
        ∧ (∀ i (hi : i < freq_list.length),
            (v.testBit i = true
              ↔ freq_list.get ⟨i, hi⟩ = maxFreq freq_list))
        ∧ ∀ i, freq_list.length ≤ i → v.testBit i = false)
    ∧ get_cpu_mask [100, 200, 200, 100] = some "6" := by
  constructor
  · intro l hlen
    have hl : l ≠ [] := by
      cases l
      · simp at hlen
      · simp
    refine ⟨bitsVal (l.map (fun f => decide (f = maxFreq l))),
      get_cpu_mask_eq l hl, ?_, ?_⟩
    · intro i hi
      rw [bitsVal_testBit]
      have hget : (l.map (fun f => decide (f = maxFreq l))).getD i false
          = decide (l.get ⟨i, hi⟩ = maxFreq l) := by
        rw [List.getD_eq_getElem?_getD, List.getElem?_map,
          List.getElem?_eq_getElem hi]
        simp [List.get_eq_getElem]
      rw [hget]
      simp
    · intro i hig
      rw [bitsVal_testBit]
      apply List.getD_eq_default
      simpa using hig
  · rfl

/-- C6 witness: the bit characterisation instantiated at the spec's
example frequency list. -/
theorem get_cpu_mask_spec_witness :
    0 < ([100, 200, 200, 100] : List ℕ).length
    ∧ ∃ v, get_cpu_mask [100, 200, 200, 100] = some (pyHex v)
        ∧ (∀ i (hi : i < ([100, 200, 200, 100] : List ℕ).length),
            (v.testBit i = true
              ↔ ([100, 200, 200, 100] : List ℕ).get ⟨i, hi⟩
                  = maxFreq [100, 200, 200, 100]))
        ∧ ∀ i, ([100, 200, 200, 100] : List ℕ).length ≤ i →
            v.testBit i = false :=
  ⟨by decide, get_cpu_mask_spec.1 [100, 200, 200, 100] (by decide)⟩

/-- C10: get_cpu_mask raises (int('', 2) fails) when the per-core frequency
list is empty, and returns a mask whenever at least one core frequency was
read: callers must guarantee at least one readable core. -/
theorem get_cpu_mask_needs_a_core :
    get_cpu_mask [] = none
    ∧ ∀ freq_list : List ℕ, freq_list ≠ [] →
        (get_cpu_mask freq_list).isSome = true := by
  constructor
  · rfl
  · intro l hl
    rw [get_cpu_mask_eq l hl]
    rfl

/-- C10 witness: a single readable core yields a mask. -/
theorem get_cpu_mask_needs_a_core_witness :
    ([100] : List ℕ) ≠ [] ∧ (get_cpu_mask [100]).isSome = true :=
  ⟨by decide, get_cpu_mask_needs_a_core.2 [100] (by decide)⟩

/-- filterMap keeps exactly the elements on which the partial function
fires, in order, mapped through it. -/
theorem filterMap_eq_map_filter {α β : Type} (f : α → Option β) (dflt : β) :
    ∀ l : List α,
      l.filterMap f
        = (l.filter (fun a => (f a).isSome)).map
            (fun a => (f a).getD dflt) := by
  intro l
  induction l with
  | nil => rfl
  | cons a l ih =>
    cases hfa : f a with
    | none => simp [List.filterMap_cons, List.filter_cons, hfa, ih]
    | some b => simp [List.filterMap_cons, List.filter_cons, hfa, ih]

/-- C7: adb_devices returns exactly the serials of the lines of the device
dump that match the pattern (\w+)\s+device, in dump order, ignoring all
non-matching lines (headers, offline entries); the count of returned
serials is the count of matching lines. -/
theorem adb_devices_spec :
    (∀ stdout : String,
      adb_devices stdout
        = ((split_stdout stdout).filter
            (fun l => (matchSerialDevice l).isSome)).map
            (fun l => (matchSerialDevice l).getD ""))
    ∧ (∀ stdout : String,
      (adb_devices stdout).length
        = (split_stdout stdout).countP
            (fun l => (matchSerialDevice l).isSome))
    ∧ adb_devices
        "List of devices attached\n1a2b3c4d\tdevice\nemu-1 device\nxyz offline\n"
      = ["1a2b3c4d"] := by
  refine ⟨?_, ?_, by decide⟩
  · intro s
    exact filterMap_eq_map_filter matchSerialDevice "" (split_stdout s)
  · intro s
    rw [adb_devices, filterMap_eq_map_filter matchSerialDevice ""]
    rw [List.length_map]
    exact (List.countP_eq_length_filter _ _).symm
